import Mathlib

/-!
Verification development for the Unbrandit worker pipeline
(`worker/src/main.py`): a shallow embedding of the manifest patcher,
resource patchers (app name, colors), log sanitizer, signing/alignment
stages and the artifact-selection logic of the two build processors,
together with proofs of the specified properties.
-/

namespace Unbrandit

/-- Python `pat in hay` on character lists: `pat` occurs as a contiguous
substring of `hay` (the empty pattern occurs in every string, as in Python). -/
def subContains (hay pat : List Char) : Bool :=
  if pat.isPrefixOf hay then true
  else
    match hay with
    | [] => false
    | _ :: t => subContains t pat

/-- Python `hay.replace(pat, rep)` for a non-empty `pat`: leftmost,
non-overlapping occurrences of `pat` are replaced by `rep`.  The source
only calls `str.replace` with a non-empty pattern (guarded by
`if old_package and old_package != new_package`); for an empty pattern this
embedding returns `hay` unchanged. -/
def subReplace (pat rep : List Char) : List Char → List Char
  | [] => []
  | c :: cs =>
    if h : pat ≠ [] ∧ pat.isPrefixOf (c :: cs) then
      rep ++ subReplace pat rep ((c :: cs).drop pat.length)
    else
      c :: subReplace pat rep cs
termination_by l => l.length
decreasing_by
  · simp only [List.length_drop, List.length_cons]
    have hp : pat.length ≥ 1 := List.length_pos.mpr h.1
    omega
  · simp only [List.length_cons]
    omega

/-- Python `pat in hay` on strings. -/
def strContains (hay pat : String) : Bool :=
  subContains hay.data pat.data

/-- Python `hay.replace(pat, rep)` on strings. -/
def strReplace (hay pat rep : String) : String :=
  ⟨subReplace pat.data rep.data hay.data⟩

theorem subContains_cons_false {c : Char} {cs pat : List Char}
    (h : subContains (c :: cs) pat = false) :
    pat.isPrefixOf (c :: cs) = false ∧ subContains cs pat = false := by
  unfold subContains at h
  by_cases hp : pat.isPrefixOf (c :: cs) = true
  · rw [if_pos hp] at h
    exact absurd h (by simp)
  · rw [if_neg hp] at h
    exact ⟨Bool.eq_false_iff.mpr hp, h⟩

/-- Replacing a pattern that does not occur is the identity. -/
theorem subReplace_of_not_contains {pat rep hay : List Char}
    (h : subContains hay pat = false) : subReplace pat rep hay = hay := by
  induction hay with
  | nil => simp [subReplace]
  | cons c cs ih =>
    obtain ⟨hpre, hrest⟩ := subContains_cons_false h
    unfold subReplace
    have hng : ¬ (pat ≠ [] ∧ pat.isPrefixOf (c :: cs)) := by
      intro hcon
      rw [hpre] at hcon
      exact Bool.false_ne_true hcon.2
    rw [dif_neg hng]
    rw [ih hrest]

/-- Replacing a pattern that does not occur is the identity (string form). -/
theorem strReplace_of_not_contains {hay pat rep : String}
    (h : strContains hay pat = false) : strReplace hay pat rep = hay := by
  unfold strReplace
  rw [subReplace_of_not_contains h]

-- ───────────────────────── Manifest patcher ─────────────────────────

/-- One element of the manifest document, as far as `apply_manifest_changes`
observes it: its tag, its `android:name` attribute and its
`android:authorities` attribute (the empty string models an absent
attribute, matching `elem.get(..., "")`). -/
structure ManifestElem where
  tag : String
  name : String
  authorities : String
deriving DecidableEq, Repr

/-- The manifest document as observed by `apply_manifest_changes`: the root
`package` attribute (empty string models an absent attribute, matching
`root.get("package", "")`), the namespaced version attributes and the list
of all descendant elements in document order. -/
structure Manifest where
  package : String
  versionCode : Option String
  versionName : Option String
  elems : List ManifestElem
deriving DecidableEq, Repr

/-- The `app` section of the branding config as consumed by
`apply_manifest_changes`: `versionCode`/`versionName` model
`str(value)` of a present field, `none` an absent one. -/
structure AppCfg where
  versionCode : Option String
  versionName : Option String
  applicationId : Option String
deriving DecidableEq, Repr

/-- The effect of one `for elem in root.iter(tag)` loop body on one element:
rewrite the `android:name` attribute when it contains the old package. -/
def passName (tag old new : String) (e : ManifestElem) : ManifestElem :=
  if e.tag = tag then
    if strContains e.name old then { e with name := strReplace e.name old new } else e
  else e

/-- The effect of the `for elem in root.iter("provider")` loop body on one
element: rewrite the `android:authorities` attribute when it contains the
old package. -/
def passAuth (old new : String) (e : ManifestElem) : ManifestElem :=
  if e.tag = "provider" then
    if strContains e.authorities old then
      { e with authorities := strReplace e.authorities old new }
    else e
  else e

/-- One `root.iter(tag)` traversal over the whole element list. -/
def patchTagName (tag old new : String) (es : List ManifestElem) : List ManifestElem :=
  es.map (passName tag old new)

/-- The `root.iter("provider")` traversal over the whole element list. -/
def patchProviderAuthorities (old new : String) (es : List ManifestElem) : List ManifestElem :=
  es.map (passAuth old new)

/-- The `versionCode`/`versionName` stage of `apply_manifest_changes`:
each attribute is set only when the corresponding config field is present. -/
def applyVersions (cfg : AppCfg) (m : Manifest) : Manifest :=
  let m1 := match cfg.versionCode with
    | some vc => { m with versionCode := some vc }
    | none => m
  match cfg.versionName with
  | some vn => { m1 with versionName := some vn }
  | none => m1

/-- `apply_manifest_changes` (main.py:159-210).  `none` models a decompiled
tree with no `AndroidManifest.xml`: the function returns immediately and the
tree is untouched. -/
def applyManifestChanges (cfg : AppCfg) (mOpt : Option Manifest) : Option Manifest :=
  match mOpt with
  | none => none
  | some m =>
    let m2 := applyVersions cfg m
    match cfg.applicationId with
    | none => some m2
    | some aid =>
      -- Python truthiness: `if application_id:` skips an empty id as well
      if aid = "" then some m2
      else
        let oldPackage := m2.package
        let m3 := { m2 with package := aid }
        if oldPackage ≠ "" ∧ oldPackage ≠ aid then
          let es5 := patchProviderAuthorities oldPackage aid (patchTagName "uses-permission" oldPackage aid (patchTagName "permission-tree" oldPackage aid (patchTagName "permission-group" oldPackage aid (patchTagName "permission" oldPackage aid m3.elems))))
          some { m3 with elems := es5 }
        else some m3

/-- The per-element effect the spec describes for a package rename: the
old package is substring-replaced by the new one in the `android:name`
attribute of permission-declaring and permission-using elements and in the
`android:authorities` attribute of providers; every other element is
returned unchanged. -/
def claimElemPatch (old new : String) (e : ManifestElem) : ManifestElem :=
  if e.tag = "permission" ∨ e.tag = "permission-group" ∨
     e.tag = "permission-tree" ∨ e.tag = "uses-permission" then
    { e with name := strReplace e.name old new }
  else if e.tag = "provider" then
    { e with authorities := strReplace e.authorities old new }
  else e

theorem condName_elim (old new t n a : String) :
    (if strContains n old then ManifestElem.mk t (strReplace n old new) a
     else ManifestElem.mk t n a) = ManifestElem.mk t (strReplace n old new) a := by
  by_cases h : strContains n old = true
  · rw [if_pos h]
  · rw [if_neg h]
    rw [strReplace_of_not_contains (Bool.eq_false_iff.mpr h)]

theorem condAuth_elim (old new t n a : String) :
    (if strContains a old then ManifestElem.mk t n (strReplace a old new)
     else ManifestElem.mk t n a) = ManifestElem.mk t n (strReplace a old new) := by
  by_cases h : strContains a old = true
  · rw [if_pos h]
  · rw [if_neg h]
    rw [strReplace_of_not_contains (Bool.eq_false_iff.mpr h)]

/-- The five per-element loop bodies of the source compose to the single
per-element patch described by the spec. -/
theorem passes_elem_eq (old new : String) (e : ManifestElem) :
    passAuth old new (passName "uses-permission" old new (passName "permission-tree" old new (passName "permission-group" old new (passName "permission" old new e)))) = claimElemPatch old new e := by
  rcases e with ⟨t, n, a⟩
  by_cases h1 : t = "permission"
  · subst h1
    simp [passName, passAuth, claimElemPatch, condName_elim]
  · by_cases h2 : t = "permission-group"
    · subst h2
      simp [passName, passAuth, claimElemPatch, condName_elim]
    · by_cases h3 : t = "permission-tree"
      · subst h3
        simp [passName, passAuth, claimElemPatch, condName_elim]
      · by_cases h4 : t = "uses-permission"
        · subst h4
          simp [passName, passAuth, claimElemPatch, condName_elim]
        · by_cases h5 : t = "provider"
          · subst h5
            simp [passName, passAuth, claimElemPatch, condAuth_elim]
          · simp [passName, passAuth, claimElemPatch, h1, h2, h3, h4, h5]

/-- The five traversal passes of the source compose to a single map of the
per-element patch described by the spec. -/
theorem patch_passes_eq_claim (old new : String) (es : List ManifestElem) :
    patchProviderAuthorities old new (patchTagName "uses-permission" old new (patchTagName "permission-tree" old new (patchTagName "permission-group" old new (patchTagName "permission" old new es)))) = es.map (claimElemPatch old new) := by
  unfold patchProviderAuthorities patchTagName
  simp only [List.map_map]
  apply List.map_congr_left
  intro e _
  exact passes_elem_eq old new e

theorem applyVersions_package (cfg : AppCfg) (m : Manifest) :
    (applyVersions cfg m).package = m.package := by
  unfold applyVersions
  cases cfg.versionCode <;> cases cfg.versionName <;> rfl

theorem applyVersions_elems (cfg : AppCfg) (m : Manifest) :
    (applyVersions cfg m).elems = m.elems := by
  unfold applyVersions
  cases cfg.versionCode <;> cases cfg.versionName <;> rfl

/-- C1: when the config supplies an `applicationId` that differs from the
manifest's non-empty old package value, `apply_manifest_changes` sets the
`package` attribute to the new value and substring-replaces the old package
by the new one in the `android:name` attribute of every `permission`,
`permission-group`, `permission-tree` and `uses-permission` element and in
the `android:authorities` attribute of every `provider` element, leaving
every other element (and hence every other permission string) unchanged. -/
theorem manifest_package_rename (cfg : AppCfg) (m : Manifest) (aid : String)
    (hid : cfg.applicationId = some aid) (hne : aid ≠ "")
    (hold : m.package ≠ "") (hdiff : aid ≠ m.package) :
    ∃ mp, applyManifestChanges cfg (some m) = some mp ∧ mp.package = aid ∧
      mp.elems = m.elems.map (claimElemPatch m.package aid) := by
  have hpkg := applyVersions_package cfg m
  have helems := applyVersions_elems cfg m
  unfold applyManifestChanges
  rw [hid]
  simp only
  rw [if_neg hne]
  have hcond : (applyVersions cfg m).package ≠ "" ∧ (applyVersions cfg m).package ≠ aid := by
    rw [hpkg]
    exact ⟨hold, Ne.symm hdiff⟩
  rw [if_pos hcond]
  refine ⟨_, rfl, rfl, ?_⟩
  show patchProviderAuthorities (applyVersions cfg m).package aid (patchTagName "uses-permission" (applyVersions cfg m).package aid (patchTagName "permission-tree" (applyVersions cfg m).package aid (patchTagName "permission-group" (applyVersions cfg m).package aid (patchTagName "permission" (applyVersions cfg m).package aid (applyVersions cfg m).elems)))) = m.elems.map (claimElemPatch m.package aid)
  rw [patch_passes_eq_claim, helems, hpkg]

/-- Witness for C1 at a concrete manifest and config. -/
theorem manifest_package_rename_witness :
    ∃ mp, applyManifestChanges (AppCfg.mk none none (some "com.new.brand")) (some (Manifest.mk "com.old.app" none none [ManifestElem.mk "permission" "com.old.app.PERMISSION" "", ManifestElem.mk "provider" "" "com.old.app.provider;com.old.app.files", ManifestElem.mk "activity" "com.old.app.Main" ""])) = some mp ∧ mp.package = "com.new.brand" ∧ mp.elems = [ManifestElem.mk "permission" "com.old.app.PERMISSION" "", ManifestElem.mk "provider" "" "com.old.app.provider;com.old.app.files", ManifestElem.mk "activity" "com.old.app.Main" ""].map (claimElemPatch "com.old.app" "com.new.brand") :=
  manifest_package_rename _ _ _ rfl (by decide) (by decide) (by decide)

/-- C9: when `AndroidManifest.xml` does not exist, `apply_manifest_changes`
returns without raising and leaves the tree unchanged, whatever the config. -/
theorem manifest_missing_noop (cfg : AppCfg) :
    applyManifestChanges cfg none = none := rfl

-- ───────────────────────── Color patcher ─────────────────────────

/-- Value of one hexadecimal digit, as accepted by Python `int(_, 16)`. -/
def hexDigitVal (c : Char) : Option Nat :=
  if '0' ≤ c ∧ c ≤ '9' then some (c.toNat - '0'.toNat)
  else if 'a' ≤ c ∧ c ≤ 'f' then some (c.toNat - 'a'.toNat + 10)
  else if 'A' ≤ c ∧ c ≤ 'F' then some (c.toNat - 'A'.toNat + 10)
  else none

def parseHexAux : List Char → Nat → Option Nat
  | [], acc => some acc
  | c :: cs, acc =>
    match hexDigitVal c with
    | some d => parseHexAux cs (acc * 16 + d)
    | none => none

/-- Python `int(s, 16)` on a string of plain hex digits: `none` models the
`ValueError` raised on the empty string or a non-hex character. -/
def parseHex (s : List Char) : Option Nat :=
  match s with
  | [] => none
  | _ => parseHexAux s 0

/-- One channel of `_darken_hex` at the factor 0.2 of the only call site:
`max(0, int(channel * (1 - 0.2)))`.  Under IEEE-754 double arithmetic
`int(v * (1 - 0.2))` equals `v * 8 / 10` (floor) for every byte value `v`,
and the channel is never negative at this factor, so `max 0` is kept only
to mirror the source's clamp. -/
def darkChannel (v : Nat) : Nat := max 0 (v * 8 / 10)

def hexDigitChar (n : Nat) : Char :=
  if n < 10 then Char.ofNat ('0'.toNat + n) else Char.ofNat ('a'.toNat + (n - 10))

/-- Python `f"{v:02x}"` for `v ≤ 255`: two lowercase hex digits. -/
def toHex2 (v : Nat) : List Char := [hexDigitChar (v / 16), hexDigitChar (v % 16)]

/-- Parse the slices `[0:2]`, `[2:4]`, `[4:6]` of the post-alpha string as
hex channels, darken each, and re-emit `#` + alpha + lowercase hex.  `none`
models the `ValueError` Python raises when a channel slice is empty or not
hexadecimal. -/
def darkenRgb (alpha rgb : List Char) : Option String :=
  match parseHex (rgb.take 2), parseHex ((rgb.drop 2).take 2), parseHex ((rgb.drop 4).take 2) with
  | some r, some g, some b =>
    some ⟨'#' :: (alpha ++ (toHex2 (darkChannel r) ++ (toHex2 (darkChannel g) ++ toHex2 (darkChannel b))))⟩
  | _, _, _ => none

/-- Split off a leading alpha pair when exactly 8 characters remain after
stripping, as `_darken_hex` does via `len(hex_color) == 8`. -/
def darkenHexCore (cs : List Char) : Option String :=
  if cs.length = 8 then darkenRgb (cs.take 2) (cs.drop 2)
  else darkenRgb [] cs

/-- `_darken_hex` (main.py:330-343) at the fixed call-site factor 0.2:
strip leading `#` characters (`lstrip("#")`), split off a leading alpha
pair when 8 characters remain, darken the three channels. -/
def darkenHex (hexColor : String) : Option String :=
  darkenHexCore (hexColor.data.dropWhile (fun c => c = '#'))

/-- One `<color>` entry of the parsed color table: its `name` attribute
(empty for absent, matching `color_el.get("name", "")`) and its text. -/
structure ColorEntry where
  name : String
  text : String
deriving DecidableEq, Repr

/-- Python truthiness of an optional string (`None` and `""` are falsy). -/
def pyTruthy : Option String → Bool
  | none => false
  | some s => s != ""

/-- Python `pre.startswith` check, over the character lists. -/
def strStartsWith (s pre : String) : Bool := pre.data.isPrefixOf s.data

/-- Python `s.lower()`. -/
def lowerStr (s : String) : String := ⟨s.data.map Char.toLower⟩

/-- The body of the `for color_el in root.findall("color")` loop of
`apply_colors` (main.py:312-323) on one entry; `none` models a `ValueError`
escaping from `_darken_hex`. -/
def applyColorEl (primaryColor splashBgColor : Option String) (e : ColorEntry) : Option ColorEntry :=
  let step1 : Option ColorEntry :=
    if pyTruthy primaryColor then
      let p := primaryColor.getD ""
      if e.name = "colorPrimary" ∨ e.name = "colorPrimaryDark" ∨ e.name = "colorAccent" then
        if e.name = "colorPrimaryDark" ∧ strStartsWith p "#" then
          match darkenHex p with
          | some d => some { e with text := d }
          | none => none
        else some { e with text := p }
      else some e
    else some e
  match step1 with
  | none => none
  | some e1 =>
    if pyTruthy splashBgColor then
      if strContains (lowerStr e1.name) "splash" ∨ strContains (lowerStr e1.name) "background" then
        some { e1 with text := splashBgColor.getD "" }
      else some e1
    else some e1

/-- Apply a fallible per-element step to every element in order, stopping at
the first failure (models an exception escaping a Python `for` loop). -/
def mapOpt {α β : Type} (f : α → Option β) : List α → Option (List β)
  | [] => some []
  | a :: t =>
    match f a with
    | none => none
    | some b =>
      match mapOpt f t with
      | none => none
      | some bs => some (b :: bs)

/-- `apply_colors` (main.py:297-327) on a present, well-formed color table:
returns unchanged entries when neither color is supplied (truthily), else
rewrites every entry in order; `none` models a `ValueError` escaping from
`_darken_hex` (only `ET.ParseError` is caught by the source). -/
def applyColors (entries : List ColorEntry) (primaryColor splashBgColor : Option String) : Option (List ColorEntry) :=
  if pyTruthy primaryColor = false ∧ pyTruthy splashBgColor = false then some entries
  else mapOpt (applyColorEl primaryColor splashBgColor) entries

/-- The total per-entry result of `apply_colors` when the darkened primary
color is known to be `d`. -/
def colorElResult (p : String) (splash : Option String) (d : String) (e : ColorEntry) : ColorEntry :=
  let e1 :=
    if pyTruthy (some p) then
      if e.name = "colorPrimary" ∨ e.name = "colorPrimaryDark" ∨ e.name = "colorAccent" then
        if e.name = "colorPrimaryDark" ∧ strStartsWith p "#" then { e with text := d }
        else { e with text := p }
      else e
    else e
  if pyTruthy splash then
    if strContains (lowerStr e1.name) "splash" ∨ strContains (lowerStr e1.name) "background" then
      { e1 with text := splash.getD "" }
    else e1
  else e1

theorem applyColorEl_eq_result (p d : String) (splash : Option String)
    (hd : darkenHex p = some d) (e : ColorEntry) :
    applyColorEl (some p) splash e = some (colorElResult p splash d e) := by
  unfold applyColorEl colorElResult
  simp only [Option.getD]
  split_ifs <;> simp_all

theorem mapOpt_of_eq {α β : Type} (f : α → Option β) (g : α → β)
    (h : ∀ a, f a = some (g a)) (l : List α) : mapOpt f l = some (l.map g) := by
  induction l with
  | nil => rfl
  | cons a t ih => simp [mapOpt, h a, ih]

theorem startsWith_hash_ne_empty (p : String) (hp : strStartsWith p "#" = true) :
    p ≠ "" := by
  intro he
  subst he
  exact absurd hp (by decide)

theorem colorElResult_primaryDark (p d : String) (splash : Option String) (e : ColorEntry)
    (hname : e.name = "colorPrimaryDark") (hp : strStartsWith p "#" = true)
    (ht : pyTruthy (some p) = true) :
    colorElResult p splash d e = { e with text := d } := by
  unfold colorElResult
  rw [if_pos ht, if_pos (Or.inr (Or.inl hname)), if_pos (And.intro hname hp)]
  by_cases hs : pyTruthy splash = true
  · rw [if_pos hs]
    show (if strContains (lowerStr e.name) "splash" = true ∨ strContains (lowerStr e.name) "background" = true then ColorEntry.mk e.name (splash.getD "") else ColorEntry.mk e.name d) = ColorEntry.mk e.name d
    rw [hname]
    split_ifs with hc
    · exact absurd hc (by decide)
    · rfl
  · rw [if_neg hs]

/-- C4 (amended): for a well-formed color table with an entry named
`colorPrimaryDark` and a supplied `primaryColor` that starts with `#` and
parses as hex, `apply_colors` replaces that entry's text with the darkened
derivative of `primaryColor` (factor 0.2, per-channel floor, alpha pair
preserved — all as computed by `darkenHex`). -/
theorem apply_colors_darkens_primary_dark (entries : List ColorEntry) (p d : String)
    (splash : Option String) (i : Nat)
    (hp : strStartsWith p "#" = true) (hd : darkenHex p = some d)
    (hi : i < entries.length) (hname : (entries.get ⟨i, hi⟩).name = "colorPrimaryDark") :
    ∃ out, applyColors entries (some p) splash = some out ∧
      out.length = entries.length ∧
      ∃ hj : i < out.length, (out.get ⟨i, hj⟩).text = d := by
  have hne := startsWith_hash_ne_empty p hp
  have ht : pyTruthy (some p) = true := by simp [pyTruthy, hne]
  unfold applyColors
  rw [if_neg (by simp [ht])]
  rw [mapOpt_of_eq _ _ (applyColorEl_eq_result p d splash hd)]
  refine ⟨_, rfl, by simp, ?_⟩
  have hj : i < (entries.map (colorElResult p splash d)).length := by simpa using hi
  refine ⟨hj, ?_⟩
  rw [List.get_eq_getElem, List.getElem_map]
  have : entries[i] = entries.get ⟨i, hi⟩ := rfl
  rw [this, colorElResult_primaryDark p d splash _ hname hp ht]

/-- Witness for C4 (amended) at a concrete table and color. -/
theorem apply_colors_darkens_primary_dark_witness :
    ∃ out, applyColors [ColorEntry.mk "colorPrimaryDark" "#000000"] (some "#FFFFFF") none = some out ∧
      out.length = [ColorEntry.mk "colorPrimaryDark" "#000000"].length ∧
      ∃ hj : 0 < out.length, (out.get ⟨0, hj⟩).text = "#cccccc" :=
  apply_colors_darkens_primary_dark [ColorEntry.mk "colorPrimaryDark" "#000000"]
    "#FFFFFF" "#cccccc" none 0 (by decide) (by decide) (by decide) (by decide)

/-- C4 counterexample: a supplied `primaryColor` that does not start with
`#` is copied into `colorPrimaryDark` verbatim by `apply_colors`
(main.py:316 guards the darkening on `primary_color.startswith("#")`),
while its darkened derivative would be `#0d1b28`. -/
theorem apply_colors_no_hash_counterexample :
    applyColors [ColorEntry.mk "colorPrimaryDark" "#222222"] (some "112233") none
      = some [ColorEntry.mk "colorPrimaryDark" "112233"] ∧
    darkenHex "112233" = some "#0d1b28" ∧
    ("112233" : String) ≠ "#0d1b28" := by
  refine ⟨by decide, by decide, by decide⟩

theorem take3_hash_alpha (al rest : List Char) (h : al.length = 2) :
    ('#' :: (al ++ rest)).take 3 = '#' :: al := by
  cases al with
  | nil => simp at h
  | cons a t =>
    cases t with
    | nil => simp at h
    | cons b u =>
      cases u with
      | nil => rfl
      | cons c v => simp at h

/-- C5 (amended): color darkening is a deterministic function of its input,
every output channel is non-negative (floored at 0),
`darken("#FFFFFF", 0.2)` yields the lowercase `"#cccccc"`, and an 8-digit
input preserves its leading alpha pair unchanged in the output. -/
theorem darken_hex_deterministic_floored_alpha :
    (∀ s₁ s₂ : String, s₁ = s₂ → darkenHex s₁ = darkenHex s₂) ∧
    (∀ v : Nat, 0 ≤ darkChannel v) ∧
    darkenHex "#FFFFFF" = some "#cccccc" ∧
    (∀ s d : String, (s.data.dropWhile (fun c => c = '#')).length = 8 →
      darkenHex s = some d →
      d.data.take 3 = '#' :: (s.data.dropWhile (fun c => c = '#')).take 2) := by
  refine ⟨fun s₁ s₂ h => by rw [h], fun v => Nat.zero_le _, by decide, ?_⟩
  intro s d h8 hd
  unfold darkenHex darkenHexCore at hd
  rw [if_pos h8] at hd
  unfold darkenRgb at hd
  split at hd
  · injection hd with hd
    rw [← hd]
    exact take3_hash_alpha _ _ (by rw [List.length_take]; omega)
  · exact absurd hd (by simp)

/-- Witness for C5 (amended): the alpha-preservation clause applied to
a concrete 8-digit ARGB input. -/
theorem darken_hex_alpha_witness :
    ("#80cccccc" : String).data.take 3
      = '#' :: (("#80FFFFFF" : String).data.dropWhile (fun c => c = '#')).take 2 :=
  darken_hex_deterministic_floored_alpha.2.2.2 "#80FFFFFF" "#80cccccc" (by decide) (by decide)

/-- C5 counterexample: the source emits lowercase hex (`f"{r:02x}"`), so
`darken("#FFFFFF", 0.2)` is `"#cccccc"`, not the spec's `"#CCCCCC"`. -/
theorem darken_white_not_uppercase :
    darkenHex "#FFFFFF" = some "#cccccc" ∧ darkenHex "#FFFFFF" ≠ some "#CCCCCC" :=
  ⟨by decide, by decide⟩

-- ───────────────────────── App-name patcher ─────────────────────────

/-- One `<string>` entry of `strings.xml`: its `name` attribute and its
text (`none` models a `None` element text). -/
structure StringEntry where
  name : String
  text : Option String
deriving DecidableEq, Repr

/-- The `for ... else` loop of `apply_app_name` over `strings.xml`
(main.py:227-235): set the text of the first `app_name` entry and stop, or
append a fresh entry when none exists. -/
def setAppName (newName : String) : List StringEntry → List StringEntry
  | [] => [StringEntry.mk "app_name" (some newName)]
  | e :: rest =>
    if e.name = "app_name" then StringEntry.mk e.name (some newName) :: rest
    else e :: setAppName newName rest

/-- The manifest-label step of `apply_app_name` (main.py:249-263) on the
application element's `android:label`: `none` models a missing application
element (nothing happens); an inner `none` a missing label attribute.  A
hardcoded (non-`@`, non-empty) or missing/empty label is overwritten; a
resource reference is left untouched. -/
def patchLabel (newName : String) (appElem : Option (Option String)) : Option (Option String) :=
  match appElem with
  | none => none
  | some label =>
    match label with
    | some l =>
      if l ≠ "" ∧ strStartsWith l "@" = false then some (some newName)
      else if l = "" then some (some newName)
      else some (some l)
    | none => some (some newName)

/-- The files `apply_app_name` touches, on the well-formed-XML path: the
parsed `strings.xml` entries (`none` when the file does not exist) and the
manifest's application element (`none` when the manifest does not exist). -/
structure NameTree where
  stringsXml : Option (List StringEntry)
  manifestApp : Option (Option (Option String))
deriving DecidableEq, Repr

def applyAppNameStrings (newName : String) : Option (List StringEntry) → Option (List StringEntry)
  | none => none
  | some es => some (setAppName newName es)

def applyAppNameManifest (newName : String) : Option (Option (Option String)) → Option (Option (Option String))
  | none => none
  | some app => some (patchLabel newName app)

/-- `apply_app_name` (main.py:213-265) on the well-formed-XML path: no-op
for an empty name, else patch `strings.xml` and the manifest label. -/
def applyAppName (newName : String) (t : NameTree) : NameTree :=
  if newName = "" then t
  else NameTree.mk (applyAppNameStrings newName t.stringsXml) (applyAppNameManifest newName t.manifestApp)

theorem setAppName_idem (n : String) (es : List StringEntry) :
    setAppName n (setAppName n es) = setAppName n es := by
  induction es with
  | nil => rfl
  | cons e rest ih =>
    by_cases h : e.name = "app_name"
    · simp [setAppName, h]
    · simp [setAppName, h, ih]

theorem patchLabel_idem (n : String) (hn : n ≠ "") (app : Option (Option String)) :
    patchLabel n (patchLabel n app) = patchLabel n app := by
  have hfix : patchLabel n (some (some n)) = some (some n) := by
    by_cases hs : strStartsWith n "@" = false
    · simp [patchLabel, hn, hs]
    · have hs2 : strStartsWith n "@" = true := by
        revert hs
        cases strStartsWith n "@" <;> simp
      simp [patchLabel, hn, hs2]
  match app with
  | none => rfl
  | some none =>
    show patchLabel n (some (some n)) = some (some n)
    exact hfix
  | some (some l) =>
    by_cases h1 : l ≠ "" ∧ strStartsWith l "@" = false
    · have hstep : patchLabel n (some (some l)) = some (some n) := by
        simp [patchLabel, h1]
      rw [hstep]
      exact hfix
    · by_cases h2 : l = ""
      · have hstep : patchLabel n (some (some l)) = some (some n) := by
          simp [patchLabel, h1, h2]
        rw [hstep]
        exact hfix
      · have hs : strStartsWith l "@" = true := by
          cases hv : strStartsWith l "@"
          · exact absurd (And.intro h2 hv) h1
          · rfl
        have hstep : patchLabel n (some (some l)) = some (some l) := by
          simp [patchLabel, hs, h2]
        rw [hstep]
        exact hstep

/-- C7: for a tree whose `strings.xml` and manifest are well-formed and a
non-empty name, applying the app-name patch twice with the same name yields
the same tree as applying it once (serialization is a deterministic
function of the parsed tree, so tree equality models byte identity). -/
theorem apply_app_name_idempotent (n : String) (hn : n ≠ "") (t : NameTree) :
    applyAppName n (applyAppName n t) = applyAppName n t := by
  unfold applyAppName
  rw [if_neg hn, if_neg hn]
  congr 1
  · show applyAppNameStrings n (applyAppNameStrings n t.stringsXml) = applyAppNameStrings n t.stringsXml
    match t.stringsXml with
    | none => rfl
    | some es =>
      show some (setAppName n (setAppName n es)) = some (setAppName n es)
      rw [setAppName_idem]
  · show applyAppNameManifest n (applyAppNameManifest n t.manifestApp) = applyAppNameManifest n t.manifestApp
    match t.manifestApp with
    | none => rfl
    | some app =>
      show some (patchLabel n (patchLabel n app)) = some (patchLabel n app)
      rw [patchLabel_idem n hn]

/-- Witness for C7 at a concrete tree and name. -/
theorem apply_app_name_idempotent_witness :
    applyAppName "NewBrand" (applyAppName "NewBrand" (NameTree.mk (some [StringEntry.mk "app_name" (some "Old"), StringEntry.mk "greeting" none]) (some (some (some "OldName"))))) = applyAppName "NewBrand" (NameTree.mk (some [StringEntry.mk "app_name" (some "Old"), StringEntry.mk "greeting" none]) (some (some (some "OldName")))) :=
  apply_app_name_idempotent "NewBrand" (by decide) _

-- ───────────────────────── Log sanitizer ─────────────────────────

/-- The character class `[^\s"'>]` of `_sanitize_log`'s regex: characters
allowed inside a matched URL. -/
def urlChar (c : Char) : Bool :=
  !(c == ' ' || c == '\t' || c == '\n' || c == '\r' || c == '\x0b' || c == '\x0c' || c == '"' || c == '\'' || c == '>')

/-- Boolean prefix test on character lists. -/
def isPre : List Char → List Char → Bool
  | [], _ => true
  | _ :: _, [] => false
  | a :: as, b :: bs => a == b && isPre as bs

/-- The characters of `"https://"`. -/
def httpsScheme : List Char := ['h', 't', 't', 'p', 's', ':', '/', '/']

/-- The characters of `"http://"`. -/
def httpScheme : List Char := ['h', 't', 't', 'p', ':', '/', '/']

/-- Match the regex prefix `https?://` at the head of `s`; returns the
remainder after the scheme. -/
def matchScheme (s : List Char) : Option (List Char) :=
  if isPre httpsScheme s then some (s.drop 8)
  else if isPre httpScheme s then some (s.drop 7)
  else none

/-- The characters of the replacement text `"[REDACTED_URL]"`. -/
def redactedText : List Char := ['[', 'R', 'E', 'D', 'A', 'C', 'T', 'E', 'D', '_', 'U', 'R', 'L', ']']

theorem isPre_length {p s : List Char} (h : isPre p s = true) : p.length ≤ s.length := by
  induction p generalizing s with
  | nil => simp
  | cons a as ih =>
    cases s with
    | nil => exact absurd h (by simp [isPre])
    | cons b bs =>
      simp only [isPre, Bool.and_eq_true] at h
      simpa using ih h.2

theorem matchScheme_length {s rest : List Char} (h : matchScheme s = some rest) :
    rest.length + 7 ≤ s.length := by
  unfold matchScheme at h
  split_ifs at h with h1 h2
  · have := isPre_length h1
    injection h with h
    rw [← h, List.length_drop]
    simp [httpsScheme] at this
    omega
  · have := isPre_length h2
    injection h with h
    rw [← h, List.length_drop]
    simp [httpScheme] at this
    omega

theorem dropWhile_length_le (p : Char → Bool) (l : List Char) :
    (l.dropWhile p).length ≤ l.length := by
  induction l with
  | nil => simp
  | cons a t ih =>
    by_cases h : p a = true
    · rw [List.dropWhile_cons_of_pos h]
      exact Nat.le_succ_of_le ih
    · rw [List.dropWhile_cons_of_neg h]

/-- `_sanitize_log` (main.py:18-20): Python
`re.sub(r'https?://[^\s"\x27>]+', '[REDACTED_URL]', msg)` as a left-to-right
scanner: at each position, if `https?://` followed by at least one allowed
character matches, the maximal run is replaced by the redaction text and
scanning resumes after it; otherwise one character is copied. -/
def sanitizeChars : List Char → List Char
  | [] => []
  | c :: cs =>
    match h : matchScheme (c :: cs) with
    | some (r :: tl) =>
      if urlChar r then redactedText ++ sanitizeChars ((r :: tl).dropWhile urlChar)
      else c :: sanitizeChars cs
    | some [] => c :: sanitizeChars cs
    | none => c :: sanitizeChars cs
termination_by s => s.length
decreasing_by
  · have h1 := matchScheme_length h
    have h2 := dropWhile_length_le urlChar (r :: tl)
    simp only [List.length_cons] at h1 h2 ⊢
    omega
  · simp only [List.length_cons]
    omega
  · simp only [List.length_cons]
    omega
  · simp only [List.length_cons]
    omega

/-- `_sanitize_log` on strings. -/
def sanitizeLog (msg : String) : String := ⟨sanitizeChars msg.data⟩

/-- A URL occurrence at the head of `s`, in the sense of the regex:
`https?://` followed by at least one allowed character. -/
def headUrlMatch (s : List Char) : Bool :=
  match matchScheme s with
  | some (r :: _) => urlChar r
  | _ => false

/-- `s` contains a URL occurrence (a position where the regex would match). -/
def hasUrl : List Char → Bool
  | [] => false
  | c :: cs => headUrlMatch (c :: cs) || hasUrl cs

theorem matchScheme_none_of_ne {c : Char} {cs : List Char} (hc : ¬ c = 'h') :
    matchScheme (c :: cs) = none := by
  have hb : (('h' : Char) == c) = false := beq_eq_false_iff_ne.mpr (fun he => hc he.symm)
  simp [matchScheme, httpsScheme, httpScheme, isPre, hb]

theorem headUrlMatch_cons_ne {c : Char} {cs : List Char} (hc : ¬ c = 'h') :
    headUrlMatch (c :: cs) = false := by
  simp [headUrlMatch, matchScheme_none_of_ne hc]

theorem hasUrl_append_no_h (p w : List Char) (hp : ∀ x ∈ p, ¬ x = 'h') :
    hasUrl (p ++ w) = hasUrl w := by
  induction p with
  | nil => rfl
  | cons x q ih =>
    show hasUrl (x :: (q ++ w)) = hasUrl w
    have hx : ¬ x = 'h' := hp x (List.mem_cons_self x q)
    simp only [hasUrl, headUrlMatch_cons_ne hx, Bool.false_or]
    exact ih (fun y hy => hp y (List.mem_cons_of_mem x hy))

theorem sanitizeChars_nil : sanitizeChars [] = [] := by
  rw [sanitizeChars.eq_def]

theorem sanitizeChars_cons_none {c : Char} {cs : List Char}
    (h : matchScheme (c :: cs) = none) :
    sanitizeChars (c :: cs) = c :: sanitizeChars cs := by
  conv_lhs => rw [sanitizeChars.eq_def]
  split
  all_goals try split
  all_goals simp_all

theorem sanitizeChars_cons_some_nil {c : Char} {cs : List Char}
    (h : matchScheme (c :: cs) = some []) :
    sanitizeChars (c :: cs) = c :: sanitizeChars cs := by
  conv_lhs => rw [sanitizeChars.eq_def]
  split
  all_goals try split
  all_goals simp_all

theorem sanitizeChars_cons_nourl {c : Char} {cs r : _} {tl : List Char}
    (h : matchScheme (c :: cs) = some (r :: tl)) (hr : urlChar r = false) :
    sanitizeChars (c :: cs) = c :: sanitizeChars cs := by
  conv_lhs => rw [sanitizeChars.eq_def]
  split
  all_goals try split
  all_goals simp_all

theorem sanitizeChars_cons_url {c : Char} {cs r : _} {tl : List Char}
    (h : matchScheme (c :: cs) = some (r :: tl)) (hr : urlChar r = true) :
    sanitizeChars (c :: cs) = redactedText ++ sanitizeChars ((r :: tl).dropWhile urlChar) := by
  conv_lhs => rw [sanitizeChars.eq_def]
  split
  all_goals try split
  all_goals simp_all [List.dropWhile]

theorem sanitize_append_no_h (q t : List Char) (hq : ∀ x ∈ q, ¬ x = 'h') :
    sanitizeChars (q ++ t) = q ++ sanitizeChars t := by
  induction q with
  | nil => rfl
  | cons x q ih =>
    show sanitizeChars (x :: (q ++ t)) = x :: (q ++ sanitizeChars t)
    have hx : ¬ x = 'h' := hq x (List.mem_cons_self x q)
    rw [sanitizeChars_cons_none (matchScheme_none_of_ne hx)]
    rw [ih (fun y hy => hq y (List.mem_cons_of_mem x hy))]

theorem sanitize_fix_no_h (q : List Char) (hq : ∀ x ∈ q, ¬ x = 'h') :
    sanitizeChars q = q := by
  have h := sanitize_append_no_h q [] hq
  rw [List.append_nil, sanitizeChars_nil, List.append_nil] at h
  exact h

theorem drop_len_append (p w : List Char) : (p ++ w).drop p.length = w := by
  induction p with
  | nil => rfl
  | cons a t ih => simpa using ih

theorem isPre_append_self (p w : List Char) : isPre p (p ++ w) = true := by
  induction p with
  | nil => rfl
  | cons a t ih => simp [isPre, ih]

theorem isPre_decomp {p s : List Char} (h : isPre p s = true) :
    s = p ++ s.drop p.length := by
  induction p generalizing s with
  | nil => simp
  | cons a t ih =>
    cases s with
    | nil => exact absurd h (by simp [isPre])
    | cons b bs =>
      simp only [isPre, Bool.and_eq_true, beq_iff_eq] at h
      obtain ⟨hab, hpre⟩ := h
      subst hab
      show a :: bs = a :: (t ++ (a :: bs).drop (t.length + 1))
      rw [List.drop_succ_cons]
      rw [← ih hpre]

theorem matchScheme_decomp {s rest : List Char} (h : matchScheme s = some rest) :
    s = httpsScheme ++ rest ∨ s = httpScheme ++ rest := by
  unfold matchScheme at h
  split_ifs at h with h1 h2
  · left
    injection h with h
    rw [← h]
    exact isPre_decomp h1
  · right
    injection h with h
    rw [← h]
    exact isPre_decomp h2

theorem matchScheme_https_append (w : List Char) :
    matchScheme (httpsScheme ++ w) = some w := by
  unfold matchScheme
  rw [if_pos (isPre_append_self httpsScheme w)]
  rw [show (8 : Nat) = httpsScheme.length from rfl, drop_len_append]

theorem matchScheme_http_append (w : List Char) :
    matchScheme (httpScheme ++ w) = some w := by
  unfold matchScheme
  have hfalse : isPre httpsScheme (httpScheme ++ w) = false := by
    have hb : (('s' : Char) == ':') = false := by decide
    simp [isPre, httpsScheme, httpScheme, hb]
  rw [if_neg (by simp [hfalse]), if_pos (isPre_append_self httpScheme w)]
  rw [show (7 : Nat) = httpScheme.length from rfl, drop_len_append]

theorem matchScheme_of_https {s : List Char} (h : isPre httpsScheme s = true) :
    matchScheme s = some (s.drop 8) := by
  unfold matchScheme
  rw [if_pos h]

theorem matchScheme_of_http {s : List Char} (h : isPre httpScheme s = true) :
    ∃ r, matchScheme s = some r := by
  unfold matchScheme
  by_cases h1 : isPre httpsScheme s = true
  · rw [if_pos h1]
    exact ⟨_, rfl⟩
  · rw [if_neg h1, if_pos h]
    exact ⟨_, rfl⟩

theorem isPre_sanitize {p : List Char} (hp : ∀ x ∈ p, ¬ x = '[') :
    ∀ u, isPre p (sanitizeChars u) = true → isPre p u = true := by
  induction p with
  | nil => intro u _; rfl
  | cons x q ih =>
    intro u hu
    have hq : ∀ y ∈ q, ¬ y = '[' := fun y hy => hp y (List.mem_cons_of_mem x hy)
    cases u with
    | nil => exact absurd hu (by simp [sanitizeChars, isPre])
    | cons c cs =>
      have hcopy : sanitizeChars (c :: cs) = c :: sanitizeChars cs →
          isPre (x :: q) (c :: cs) = true := by
        intro heq
        rw [heq] at hu
        simp only [isPre, Bool.and_eq_true] at hu ⊢
        exact ⟨hu.1, ih hq cs hu.2⟩
      rcases hm : matchScheme (c :: cs) with _ | rest
      · exact hcopy (sanitizeChars_cons_none hm)
      · cases rest with
        | nil => exact hcopy (sanitizeChars_cons_some_nil hm)
        | cons r tl =>
          cases hr : urlChar r
          · exact hcopy (sanitizeChars_cons_nourl hm hr)
          · rw [sanitizeChars_cons_url hm hr] at hu
            have hx : ¬ x = '[' := hp x (List.mem_cons_self x q)
            have hb : (x == '[') = false := beq_eq_false_iff_ne.mpr hx
            exact absurd hu (by simp [redactedText, isPre, hb])

theorem headUrlMatch_sanitize_none {c : Char} {cs : List Char}
    (hm : matchScheme (c :: cs) = none) :
    headUrlMatch (c :: sanitizeChars cs) = false := by
  unfold headUrlMatch
  cases hm2 : matchScheme (c :: sanitizeChars cs) with
  | none => rfl
  | some rest =>
    exfalso
    have hsan : sanitizeChars (c :: cs) = c :: sanitizeChars cs := sanitizeChars_cons_none hm
    rcases matchScheme_decomp hm2 with hd | hd
    · have hpre : isPre httpsScheme (c :: sanitizeChars cs) = true := by
        rw [hd]
        exact isPre_append_self _ _
      rw [← hsan] at hpre
      have htr := isPre_sanitize (p := httpsScheme) (by decide) _ hpre
      rw [matchScheme_of_https htr] at hm
      exact absurd hm (by simp)
    · have hpre : isPre httpScheme (c :: sanitizeChars cs) = true := by
        rw [hd]
        exact isPre_append_self _ _
      rw [← hsan] at hpre
      have htr := isPre_sanitize (p := httpScheme) (by decide) _ hpre
      obtain ⟨r, hrr⟩ := matchScheme_of_http htr
      rw [hrr] at hm
      exact absurd hm (by simp)

theorem urlChar_ne_h {r : Char} (hr : urlChar r = false) : ¬ r = 'h' := by
  intro he
  subst he
  exact absurd hr (by decide)

theorem headUrlMatch_sanitize_nourl {c : Char} {cs : List Char} {r : Char} {tl : List Char}
    (hm : matchScheme (c :: cs) = some (r :: tl)) (hr : urlChar r = false) :
    headUrlMatch (c :: sanitizeChars cs) = false := by
  have hrh := urlChar_ne_h hr
  rcases matchScheme_decomp hm with hd | hd
  · have hd2 : c :: cs = 'h' :: (['t', 't', 'p', 's', ':', '/', '/'] ++ (r :: tl)) := hd
    injection hd2 with hc1 hc2
    rw [hc2, sanitize_append_no_h _ _ (by decide),
        sanitizeChars_cons_none (matchScheme_none_of_ne hrh), hc1]
    show headUrlMatch (httpsScheme ++ (r :: sanitizeChars tl)) = false
    unfold headUrlMatch
    rw [matchScheme_https_append]
    exact hr
  · have hd2 : c :: cs = 'h' :: (['t', 't', 'p', ':', '/', '/'] ++ (r :: tl)) := hd
    injection hd2 with hc1 hc2
    rw [hc2, sanitize_append_no_h _ _ (by decide),
        sanitizeChars_cons_none (matchScheme_none_of_ne hrh), hc1]
    show headUrlMatch (httpScheme ++ (r :: sanitizeChars tl)) = false
    unfold headUrlMatch
    rw [matchScheme_http_append]
    exact hr

theorem hasUrl_sanitize_len : ∀ (n : Nat) (u : List Char), u.length ≤ n →
    hasUrl (sanitizeChars u) = false := by
  intro n
  induction n with
  | zero =>
    intro u hu
    cases u with
    | nil => rw [sanitizeChars_nil]; rfl
    | cons c cs => simp at hu
  | succ n ih =>
    intro u hu
    cases u with
    | nil => rw [sanitizeChars_nil]; rfl
    | cons c cs =>
      have hcs : cs.length ≤ n := by
        simp only [List.length_cons] at hu
        omega
      rcases hm : matchScheme (c :: cs) with _ | rest
      · rw [sanitizeChars_cons_none hm]
        show (headUrlMatch (c :: sanitizeChars cs) || hasUrl (sanitizeChars cs)) = false
        rw [headUrlMatch_sanitize_none hm, ih cs hcs]
        rfl
      · cases rest with
        | nil =>
          rw [sanitizeChars_cons_some_nil hm]
          rcases matchScheme_decomp hm with hd | hd
          all_goals rw [List.append_nil] at hd
          · have hd2 : c :: cs = 'h' :: ['t', 't', 'p', 's', ':', '/', '/'] := hd
            injection hd2 with hc1 hc2
            rw [hc2, sanitize_fix_no_h _ (by decide), hc1]
            decide
          · have hd2 : c :: cs = 'h' :: ['t', 't', 'p', ':', '/', '/'] := hd
            injection hd2 with hc1 hc2
            rw [hc2, sanitize_fix_no_h _ (by decide), hc1]
            decide
        | cons r tl =>
          by_cases hr : urlChar r = true
          · rw [sanitizeChars_cons_url hm hr]
            rw [hasUrl_append_no_h redactedText _ (by decide)]
            apply ih
            have h1 := matchScheme_length hm
            have h2 := dropWhile_length_le urlChar (r :: tl)
            simp only [List.length_cons] at h1 h2 ⊢
            omega
          · have hr2 : urlChar r = false := by
              cases hv : urlChar r
              · rfl
              · exact absurd hv hr
            rw [sanitizeChars_cons_nourl hm hr2]
            show (headUrlMatch (c :: sanitizeChars cs) || hasUrl (sanitizeChars cs)) = false
            rw [headUrlMatch_sanitize_nourl hm hr2, ih cs hcs]
            rfl

/-- The sanitizer's output never contains a URL occurrence. -/
theorem hasUrl_sanitizeChars (u : List Char) : hasUrl (sanitizeChars u) = false :=
  hasUrl_sanitize_len u.length u (Nat.le_refl _)

-- ───────────────────── Alignment / signing pipeline ─────────────────────

/-- Provenance of an APK file within one build's scratch directory. -/
inductive ApkArtifact
  | rebuilt
  | alignedOf (a : ApkArtifact)
  | signedOf (a : ApkArtifact)
  | copiedOf (a : ApkArtifact)
deriving DecidableEq, Repr

/-- `zipalign_apk` (main.py:485-496): `zipalign -p 4 input output`. -/
def zipalignApk (a : ApkArtifact) : ApkArtifact := ApkArtifact.alignedOf a

/-- An artifact that is the direct output of zip alignment. -/
def isZipAligned : ApkArtifact → Bool
  | ApkArtifact.alignedOf _ => true
  | _ => false

/-- Modelled from the spec: the external `apksigner` collaborator (§6, §4.6)
invoked by `sign_apk` (main.py:453-482) with `--v1-signing-enabled`,
`--v2-signing-enabled` and `--v3-signing-enabled` all true.  Per the spec's
ordered contract it rejects (fails fast on) an input that has not passed
zip alignment when all three schemes are requested together, because v2/v3
signatures cover the archive's exact byte layout; the subprocess itself is
not part of src/. -/
def signApk (v1 v2 v3 : Bool) (input : ApkArtifact) : Except String ApkArtifact :=
  if v1 && v2 && v3 && !(isZipAligned input) then Except.error "unaligned input rejected"
  else Except.ok (ApkArtifact.signedOf input)

/-- One observable step of the rebuild-align-sign stage. -/
inductive PEvent
  | rebuildEvt
  | alignEvt (inp outp : ApkArtifact)
  | signEvt (inp : ApkArtifact)
  | copyEvt (inp : ApkArtifact)
deriving DecidableEq, Repr

/-- Steps 7-9 of `process_apk_build` (main.py:564-584): `apktool b` produces
`unsigned.apk`; zipalign runs first (step 8), producing `aligned.apk`; then
the aligned APK is signed with v1+v2+v3 when a signing config is present
(step 9), else copied unsigned. -/
def buildSignedApk (hasSigning : Bool) : Except String (ApkArtifact × List PEvent) :=
  let unsigned := ApkArtifact.rebuilt
  let aligned := zipalignApk unsigned
  if hasSigning then
    match signApk true true true aligned with
    | Except.ok s =>
      Except.ok (s, [PEvent.rebuildEvt, PEvent.alignEvt unsigned aligned, PEvent.signEvt aligned])
    | Except.error e => Except.error e
  else
    Except.ok (ApkArtifact.copiedOf aligned,
      [PEvent.rebuildEvt, PEvent.alignEvt unsigned aligned, PEvent.copyEvt aligned])

/-- C2: with all three signature schemes requested, the signer rejects any
unaligned input (fails fast), and in `process_apk_build` every signing
invocation receives exactly the output of the preceding zipalign step, which
occurs strictly earlier in the event trace — so alignment always precedes
signing and signing is never invoked on an unaligned package. -/
theorem align_precedes_signing :
    (∀ a : ApkArtifact, isZipAligned a = false →
      signApk true true true a = Except.error "unaligned input rejected") ∧
    (∀ hasSigning : Bool, ∃ art evts,
      buildSignedApk hasSigning = Except.ok (art, evts) ∧
      ∀ inp, PEvent.signEvt inp ∈ evts →
        isZipAligned inp = true ∧
        ∃ i j inp0, i < j ∧ evts.get? i = some (PEvent.alignEvt inp0 inp) ∧
          evts.get? j = some (PEvent.signEvt inp)) := by
  constructor
  · intro a ha
    simp [signApk, ha]
  · intro hs
    cases hs
    · refine ⟨_, _, rfl, ?_⟩
      intro inp hmem
      simp [PEvent.signEvt.injEq] at hmem
    · refine ⟨_, _, rfl, ?_⟩
      intro inp hmem
      simp [PEvent.signEvt.injEq] at hmem
      subst hmem
      exact ⟨rfl, 1, 2, ApkArtifact.rebuilt, by decide, rfl, rfl⟩

/-- Witness for C2: a concrete unaligned artifact is rejected by the
three-scheme signer. -/
theorem align_precedes_signing_witness :
    signApk true true true ApkArtifact.rebuilt = Except.error "unaligned input rejected" :=
  align_precedes_signing.1 ApkArtifact.rebuilt (by decide)

-- ───────────────────── Artifact selection and upload ─────────────────────

/-- `upload_to_blob` (main.py:132-153) as seen by the pipeline: a
deterministic stand-in for the durable blob URL returned for a file
uploaded under a classification. -/
def uploadUrl (cls file : String) : String := "url:" ++ cls ++ "/" ++ file

/-- Python `dict.get(k)` on the insertion-ordered url mapping. -/
def lookupUrl (urls : List (String × String)) (k : String) : Option String :=
  match urls with
  | [] => none
  | (k2, v) :: t => if k2 = k then some v else lookupUrl t k

/-- Python `k in urls`. -/
def hasKey (urls : List (String × String)) (k : String) : Bool :=
  (lookupUrl urls k).isSome

/-- The keys of the url mapping, in insertion order. -/
def listKeys (urls : List (String × String)) : List String := urls.map Prod.fst

/-- Step 10 of `process_apk_build` (main.py:586-604): upload the APK when
`buildType ∈ {APK, BOTH}`; for `buildType ∈ {AAB, BOTH}` upload the AAB when
the bundletool conversion produced a file (`aabProducible`), else fall back
to uploading the APK under the `apk` key if that key is not already
present. -/
def apkBuildUrls (buildType : String) (aabProducible : Bool) : List (String × String) :=
  let urls : List (String × String) := []
  let urls := if buildType = "APK" ∨ buildType = "BOTH" then
    urls ++ [("apk", uploadUrl "apk" "signed.apk")] else urls
  if buildType = "AAB" ∨ buildType = "BOTH" then
    if aabProducible then urls ++ [("aab", uploadUrl "aab" "output.aab")]
    else if hasKey urls "apk" = false then urls ++ [("apk", uploadUrl "apk" "signed.apk")]
    else urls
  else urls

/-- The artifact-discovery and upload tail of `process_source_build`
(main.py:684-708), parameterized by the `*.apk` and `*.aab` candidate lists
found under the Gradle outputs directory.  Any `buildType` other than
`APK`/`AAB` takes the `else` (BOTH) branch, as in the source. -/
def sourceBuildUrls (buildType : String) (apkCandidates aabCandidates : List String) : Except String (List (String × String)) :=
  if buildType = "APK" then
    match apkCandidates with
    | [] => Except.error "No APK artifact found after Gradle build"
    | a :: _ => Except.ok [("apk", uploadUrl "gradle" a)]
  else if buildType = "AAB" then
    match aabCandidates with
    | [] => Except.error "No AAB artifact found after Gradle bundleRelease"
    | b :: _ => Except.ok [("aab", uploadUrl "gradle" b)]
  else
    let urls : List (String × String) := []
    let urls := match apkCandidates with
      | [] => urls
      | a :: _ => urls ++ [("apk", uploadUrl "gradle" a)]
    let urls := match aabCandidates with
      | [] => urls
      | b :: _ => urls ++ [("aab", uploadUrl "gradle" b)]
    if urls = [] then Except.error "No APK or AAB artifacts found after Gradle build"
    else Except.ok urls

/-- C3: with `buildType = BOTH` and both outputs producible the returned
mapping has keys for both `apk` and `aab`, and with `buildType = APK` it has
exactly the key `apk` — in the APK pipeline and in the source (Gradle)
pipeline alike. -/
theorem artifact_keys_by_build_type :
    (∀ b : Bool, listKeys (apkBuildUrls "APK" b) = ["apk"]) ∧
    listKeys (apkBuildUrls "BOTH" true) = ["apk", "aab"] ∧
    (∀ a as bs res, sourceBuildUrls "APK" (a :: as) bs = Except.ok res →
      listKeys res = ["apk"]) ∧
    (∀ a as b bs res, sourceBuildUrls "BOTH" (a :: as) (b :: bs) = Except.ok res →
      listKeys res = ["apk", "aab"]) := by
  refine ⟨fun b => by cases b <;> rfl, rfl, ?_, ?_⟩
  · intro a as bs res h
    simp only [sourceBuildUrls, if_pos rfl] at h
    injection h with h
    rw [← h]
    rfl
  · intro a as b bs res h
    have h1 : ("BOTH" : String) = "APK" ↔ False := by simp
    have h2 : ("BOTH" : String) = "AAB" ↔ False := by simp
    simp only [sourceBuildUrls, h1, h2, if_false] at h
    simp at h
    rw [← h]
    rfl

/-- Witness for C3 at concrete Gradle artifact lists. -/
theorem artifact_keys_by_build_type_witness :
    listKeys [("apk", uploadUrl "gradle" "app-release.apk"), ("aab", uploadUrl "gradle" "app-release.aab")] = ["apk", "aab"] :=
  artifact_keys_by_build_type.2.2.2 "app-release.apk" [] "app-release.aab" [] _ rfl

/-- C6 counterexample: a `BOTH` source build that produced an APK but no AAB
returns the APK mapping successfully instead of failing fatally. -/
theorem source_both_missing_aab_counterexample :
    sourceBuildUrls "BOTH" ["app-release.apk"] [] = Except.ok [("apk", uploadUrl "gradle" "app-release.apk")] ∧
    (∀ e, sourceBuildUrls "BOTH" ["app-release.apk"] [] ≠ Except.error e) := by
  constructor
  · rfl
  · intro e h
    rw [show sourceBuildUrls "BOTH" ["app-release.apk"] [] = Except.ok [("apk", uploadUrl "gradle" "app-release.apk")] from rfl] at h
    exact absurd h (by simp)

/-- C6 (amended): a `BOTH` source build fails fatally only when both the
APK and the AAB artifact are missing from the Gradle outputs; when exactly
one is present the build succeeds with just that artifact. -/
theorem source_both_error_iff_none :
    sourceBuildUrls "BOTH" [] [] = Except.error "No APK or AAB artifacts found after Gradle build" ∧
    (∀ a as, sourceBuildUrls "BOTH" (a :: as) [] = Except.ok [("apk", uploadUrl "gradle" a)]) ∧
    (∀ b bs, sourceBuildUrls "BOTH" [] (b :: bs) = Except.ok [("aab", uploadUrl "gradle" b)]) ∧
    (∀ a as b bs, sourceBuildUrls "BOTH" (a :: as) (b :: bs) =
      Except.ok [("apk", uploadUrl "gradle" a), ("aab", uploadUrl "gradle" b)]) :=
  ⟨rfl, fun a as => rfl, fun b bs => rfl, fun a as b bs => rfl⟩

-- ───────────────────── Build handler ─────────────────────

/-- Terminal and progress statuses reported to the backend. -/
inductive BStatus
  | RUNNING
  | SUCCESS
  | FAILED
deriving DecidableEq, Repr

/-- One `append_logs` call: message, optional status, optional download URL
(the payload omits a falsy `download_url`, as `append_logs` does). -/
structure LogEvent where
  msg : String
  status : Option BStatus
  downloadUrl : Option String
deriving DecidableEq, Repr

/-- Python `x or y` for an optional string left operand. -/
def pyOrStr (x : Option String) (y : String) : String :=
  match x with
  | none => y
  | some s => if s = "" then y else s

/-- Python `urls.get(k, d)`. -/
def lookupUrlD (urls : List (String × String)) (k d : String) : String :=
  match lookupUrl urls k with
  | none => d
  | some v => v

/-- main.py:722-724: `urls.get("aab") or urls.get("apk", "")`. -/
def selectDownloadUrl (urls : List (String × String)) : String :=
  pyOrStr (lookupUrl urls "aab") (lookupUrlD urls "apk" "")

/-- `append_logs` omits a falsy `download_url` from the payload. -/
def optIfTruthy (s : String) : Option String :=
  if s = "" then none else some s

/-- The observable outcome of `handle_build`: reported log events, the HTTP
response (`Except.error (500, detail)` models the raised `HTTPException`),
and whether the scratch directory was removed. -/
structure HandleResult where
  events : List LogEvent
  response : Except (Nat × String) (String × List (String × String))
  cleanedUp : Bool
deriving Repr

/-- `handle_build` (main.py:711-732), parameterized by the outcome of the
selected build processor (`Except.error e` models any exception with
message `str(exc)`).  The `finally` block removes the scratch directory on
every path. -/
def handleBuild (outcome : Except String (List (String × String))) : HandleResult :=
  match outcome with
  | Except.ok urls =>
    HandleResult.mk
      [LogEvent.mk "Starting worker build...\n" (some BStatus.RUNNING) none,
       LogEvent.mk "Build completed successfully.\n" (some BStatus.SUCCESS) (optIfTruthy (selectDownloadUrl urls))]
      (Except.ok (selectDownloadUrl urls, urls)) true
  | Except.error e =>
    HandleResult.mk
      [LogEvent.mk "Starting worker build...\n" (some BStatus.RUNNING) none,
       LogEvent.mk ("Build failed: " ++ sanitizeLog e ++ "\n") (some BStatus.FAILED) none]
      (Except.error (500, e)) true

/-- C8: every failing build reports a terminal FAILED status whose
diagnostic is the URL-sanitized exception message — the sanitized part
contains no URL occurrence — and the scratch directory is removed on the
failure path and on the success path alike. -/
theorem failed_build_sanitized_and_cleanup (e : String) :
    (handleBuild (Except.error e)).cleanedUp = true ∧
    (∀ urls, (handleBuild (Except.ok urls)).cleanedUp = true) ∧
    (handleBuild (Except.error e)).events.getLast? =
      some (LogEvent.mk ("Build failed: " ++ sanitizeLog e ++ "\n") (some BStatus.FAILED) none) ∧
    hasUrl (sanitizeLog e).data = false :=
  ⟨rfl, fun _ => rfl, rfl, hasUrl_sanitizeChars e.data⟩

/-- `upload_to_blob` returns the blob client's constructed URL, which is
never the empty string; the model's stand-in is likewise nonempty. -/
theorem uploadUrl_ne_empty (cls file : String) : uploadUrl cls file ≠ "" := by
  rcases cls with ⟨cd⟩
  rcases file with ⟨fd⟩
  intro h
  rw [String.ext_iff] at h
  simp [uploadUrl] at h

/-- A lookup in a mapping whose values are all nonempty is nonempty. -/
theorem lookupUrl_ne_of_values {urls : List (String × String)}
    (hv : ∀ kv ∈ urls, kv.2 ≠ "") :
    ∀ k v, lookupUrl urls k = some v → v ≠ "" := by
  induction urls with
  | nil => intro k v h; exact absurd h (by simp [lookupUrl])
  | cons kv2 t ih =>
    intro k v h
    unfold lookupUrl at h
    by_cases hk : kv2.1 = k
    · rw [if_pos hk] at h
      injection h with h
      rw [← h]
      exact hv kv2 (List.mem_cons_self kv2 t)
    · rw [if_neg hk] at h
      exact ih (fun kv3 hm => hv kv3 (List.mem_cons_of_mem kv2 hm)) k v h

/-- Every value stored by `process_apk_build`'s upload step is an
`upload_to_blob` URL. -/
theorem apkBuildUrls_values_ne (bt : String) (p : Bool) :
    ∀ kv ∈ apkBuildUrls bt p, kv.2 ≠ "" := by
  intro kv hkv
  have hcases : kv = ("apk", uploadUrl "apk" "signed.apk") ∨
      kv = ("aab", uploadUrl "aab" "output.aab") := by
    revert hkv
    unfold apkBuildUrls
    by_cases h1 : bt = "APK" ∨ bt = "BOTH" <;>
      by_cases h2 : bt = "AAB" ∨ bt = "BOTH" <;>
      cases p <;>
      simp [h1, h2, hasKey, lookupUrl] <;>
      tauto
  rcases hcases with h | h <;> rw [h] <;> exact uploadUrl_ne_empty _ _

/-- Every value stored by `process_source_build`'s upload step is an
`upload_to_blob` URL. -/
theorem sourceBuildUrls_values_ne (bt : String) (ac bc : List String)
    (urls : List (String × String)) (h : sourceBuildUrls bt ac bc = Except.ok urls) :
    ∀ kv ∈ urls, kv.2 ≠ "" := by
  intro kv hkv
  suffices hex : ∃ f, kv.2 = uploadUrl "gradle" f by
    obtain ⟨f, hf⟩ := hex
    rw [hf]
    exact uploadUrl_ne_empty _ _
  unfold sourceBuildUrls at h
  by_cases h1 : bt = "APK"
  · rw [if_pos h1] at h
    cases ac with
    | nil => exact absurd h (by simp)
    | cons a as =>
      injection h with h
      rw [← h] at hkv
      simp at hkv
      exact ⟨a, by rw [hkv]⟩
  · rw [if_neg h1] at h
    by_cases h2 : bt = "AAB"
    · rw [if_pos h2] at h
      cases bc with
      | nil => exact absurd h (by simp)
      | cons b bs =>
        injection h with h
        rw [← h] at hkv
        simp at hkv
        exact ⟨b, by rw [hkv]⟩
    · rw [if_neg h2] at h
      cases ac with
      | nil =>
        cases bc with
        | nil => exact absurd h (by simp)
        | cons b bs =>
          rw [if_neg (by simp)] at h
          injection h with h
          rw [← h] at hkv
          simp at hkv
          exact ⟨b, by rw [hkv]⟩
      | cons a as =>
        cases bc with
        | nil =>
          rw [if_neg (by simp)] at h
          injection h with h
          rw [← h] at hkv
          simp at hkv
          exact ⟨a, by rw [hkv]⟩
        | cons b bs =>
          rw [if_neg (by simp)] at h
          injection h with h
          rw [← h] at hkv
          simp at hkv
          rcases hkv with hkv | hkv
          · exact ⟨a, by rw [hkv]⟩
          · exact ⟨b, by rw [hkv]⟩

/-- C10: for every successful build — a mapping actually produced by
`process_apk_build` or `process_source_build` — the single downloadUrl
reported in the terminal SUCCESS log and returned in the response is the
`aab` URL whenever the mapping contains the `aab` key (AAB preferred over
APK); if only `apk` is present it is the `apk` URL, and if neither is
present it is the empty string.  This holds because Python's
`urls.get("aab") or urls.get("apk", "")` falls through only on a falsy
left operand, and every stored URL is `upload_to_blob`'s nonempty blob
URL. -/
theorem download_url_prefers_aab (urls : List (String × String))
    (hbuild : (∃ bt p, apkBuildUrls bt p = urls) ∨
      (∃ bt ac bc, sourceBuildUrls bt ac bc = Except.ok urls)) :
    (handleBuild (Except.ok urls)).response = Except.ok (selectDownloadUrl urls, urls) ∧
    (handleBuild (Except.ok urls)).events.getLast? =
      some (LogEvent.mk "Build completed successfully.\n" (some BStatus.SUCCESS)
        (optIfTruthy (selectDownloadUrl urls))) ∧
    (∀ a, lookupUrl urls "aab" = some a → selectDownloadUrl urls = a) ∧
    (lookupUrl urls "aab" = none → ∀ p, lookupUrl urls "apk" = some p →
      selectDownloadUrl urls = p) ∧
    (lookupUrl urls "aab" = none → lookupUrl urls "apk" = none →
      selectDownloadUrl urls = "") := by
  have hval : ∀ k v, lookupUrl urls k = some v → v ≠ "" := by
    rcases hbuild with ⟨bt, p, hp⟩ | ⟨bt, ac, bc, hs⟩
    · exact lookupUrl_ne_of_values (hp ▸ apkBuildUrls_values_ne bt p)
    · exact lookupUrl_ne_of_values (sourceBuildUrls_values_ne bt ac bc urls hs)
  refine ⟨rfl, rfl, ?_, ?_, ?_⟩
  · intro a ha
    have hne := hval "aab" a ha
    simp [selectDownloadUrl, pyOrStr, ha, hne]
  · intro ha p hp
    simp [selectDownloadUrl, pyOrStr, lookupUrlD, ha, hp]
  · intro ha hp
    simp [selectDownloadUrl, pyOrStr, lookupUrlD, ha, hp]

/-- Witness for C10 at the mapping produced by a concrete BOTH build with
a producible AAB. -/
theorem download_url_prefers_aab_witness :
    selectDownloadUrl (apkBuildUrls "BOTH" true) = uploadUrl "aab" "output.aab" :=
  (download_url_prefers_aab (apkBuildUrls "BOTH" true)
    (Or.inl ⟨"BOTH", true, rfl⟩)).2.2.1 (uploadUrl "aab" "output.aab") rfl

end Unbrandit
